import Mathlib

/-
  Verification of momi2 core claims against a shallow Lean embedding.

  Numeric arrays are embedded as lists of rationals; the floating-point
  constants of the source are embedded as exact rationals.  Functions of
  the source that can raise are embedded as Except-valued functions.
-/

namespace Momi

/-! ## util.truncate0 (src/momi/util.py lines 39 to 53)

  Source:
    mins = np.maximum(-np.amin(x,axis=axis), 0.0)
    maxes = np.maximum(np.amax(x, axis=axis), 1e-300)
    assert np.all(mins <= 1e-13 * maxes)
    x[x < mins] = 0.0

  Embedded for a one-dimensional array (axis=None): amin/amax are the
  list minimum/maximum, the assert becomes an error branch, and the
  masked assignment becomes an entrywise clip.
-/

/-- Binary minimum on rationals, kept kernel-reducible. -/
def qmin (a b : ℚ) : ℚ := if a ≤ b then a else b

/-- Binary maximum on rationals, kept kernel-reducible. -/
def qmax (a b : ℚ) : ℚ := if a ≤ b then b else a

/-- Embedding of np.amin on a nonempty one-dimensional array. -/
def amin : List ℚ → Option ℚ
  | [] => none
  | a :: t => some (t.foldl qmin a)

/-- Embedding of np.amax on a nonempty one-dimensional array. -/
def amax : List ℚ → Option ℚ
  | [] => none
  | a :: t => some (t.foldl qmax a)

/-- Relative tolerance 1e-13 of the source assert, as an exact rational. -/
def tolRel : ℚ := 1 / 10 ^ 13

/-- Floor 1e-300 applied to the maximum in the source, as an exact rational. -/
def tolAbs : ℚ := 1 / 10 ^ 300

/-- Entrywise effect of the masked assignment x[x < mins] = 0.0. -/
def clipEntry (mins xi : ℚ) : ℚ := if xi < mins then 0 else xi

/-- Embedding of truncate0 for a one-dimensional array. -/
def truncate0 (x : List ℚ) : Except String (List ℚ) :=
  match amin x, amax x with
  | some mn, some mx =>
      let mins : ℚ := qmax (-mn) 0
      let maxes : ℚ := qmax mx tolAbs
      if mins ≤ tolRel * maxes then
        Except.ok (x.map (clipEntry mins))
      else
        Except.error "truncate0: negative values beyond relative tolerance"
  | _, _ => Except.error "truncate0: empty array"

/-- Claim C6: truncate0 clips negative entries to zero only when the most
    negative entry is within the fixed relative tolerance of the largest
    entry magnitude; beyond that tolerance it fails as a
    numerical-instability error; entries at or above the clipping
    threshold are returned unchanged. -/
theorem truncate0_clip_policy (x : List ℚ) (mn mx : ℚ)
    (hmn : amin x = some mn) (hmx : amax x = some mx) :
    (qmax (-mn) 0 ≤ tolRel * qmax mx tolAbs →
      truncate0 x = Except.ok (x.map (clipEntry (qmax (-mn) 0))) ∧
      ∀ i, i < x.length →
        (x.getD i 0 < 0 → (x.map (clipEntry (qmax (-mn) 0))).getD i 0 = 0) ∧
        (qmax (-mn) 0 ≤ x.getD i 0 →
          (x.map (clipEntry (qmax (-mn) 0))).getD i 0 = x.getD i 0)) ∧
    (¬ qmax (-mn) 0 ≤ tolRel * qmax mx tolAbs →
      truncate0 x =
        Except.error "truncate0: negative values beyond relative tolerance") := by
  have hq0 : (0 : ℚ) ≤ qmax (-mn) 0 := by
    unfold qmax
    split
    next => exact le_refl 0
    next h => exact le_of_lt (lt_of_not_le h)
  constructor
  · intro hok
    constructor
    · simp only [truncate0, hmn, hmx]
      rw [if_pos hok]
    · intro i hi
      have hi2 : i < (x.map (clipEntry (qmax (-mn) 0))).length := by
        rw [List.length_map]
        exact hi
      have hgd : x.getD i 0 = x[i] := List.getD_eq_getElem x 0 hi
      have hgd2 : (x.map (clipEntry (qmax (-mn) 0))).getD i 0
          = (x.map (clipEntry (qmax (-mn) 0)))[i] := List.getD_eq_getElem _ 0 hi2
      have hmap : (x.map (clipEntry (qmax (-mn) 0)))[i]
          = clipEntry (qmax (-mn) 0) x[i] := List.getElem_map _
      constructor
      · intro hneg
        rw [hgd2, hmap, clipEntry, if_pos]
        rw [hgd] at hneg
        calc x[i] < 0 := hneg
          _ ≤ qmax (-mn) 0 := hq0
      · intro hge
        rw [hgd2, hmap, hgd, clipEntry, if_neg (not_lt.mpr (hgd ▸ hge))]
  · intro hbad
    simp only [truncate0, hmn, hmx]
    rw [if_neg hbad]

/-- Witness for C6: a concrete array with a tiny negative entry is clipped
    to zero, the other entries returned unchanged. -/
theorem truncate0_clip_policy_witness :
    truncate0 [-(1 : ℚ) / 10 ^ 20, 1 / 2, 2] = Except.ok [0, 1 / 2, 2] := by
  have h := (truncate0_clip_policy [-(1 : ℚ) / 10 ^ 20, 1 / 2, 2]
      (-(1 : ℚ) / 10 ^ 20) 2 (by norm_num [amin, qmin])
      (by norm_num [amax, qmax])).1
      (by norm_num [qmax, tolRel, tolAbs])
  rw [h.1]
  norm_num [clipEntry, qmax]

/-! ## likelihood.rearrange_gradient (src/momi/likelihood.py lines 216 to 239)

  Source of the inner gradient of the differentiation-opaque primitive:
    def inner_grad(g):
        if any([not t.complete for t in x.tapes]):
            raise NotImplementedError("For second order derivatives, use
                expected_sfs() directly instead of SfsLikelihoodSurface")
        return tuple(g*y for y in gx)

  Tape state is embedded as one Boolean per tape of x, true when that tape
  is complete.  During a first-order gradient evaluation the backward pass
  runs only after every forward pass has finished, so every tape of x is
  complete; an attempt to differentiate a second time runs this backward
  pass while the outer tape is still recording, so some tape of x is
  incomplete.
-/

/-- Error text raised by the inner gradient for second-order differentiation. -/
def secondOrderErr : String :=
  "For second order derivatives, use expected_sfs() directly instead of SfsLikelihoodSurface"

/-- Embedding of inner_grad: tape completeness flags of x, the cached
    gradient gx, and an incoming cotangent g. -/
def innerGrad (tapesComplete : List Bool) (gx : List ℚ) (g : ℚ) :
    Except String (List ℚ) :=
  if tapesComplete.any (fun t => !t) then
    Except.error secondOrderErr
  else
    Except.ok (gx.map (fun y => g * y))

/-- Claim C5: differentiating a second time through the
    differentiation-opaque primitive (some tape of x incomplete) always
    fails with the explicit error naming expected_sfs and never returns a
    numeric value, while first-order gradients (all tapes complete) are
    returned. -/
theorem innerGrad_second_order_fails (tapes : List Bool) (gx : List ℚ) (g : ℚ) :
    (false ∈ tapes → innerGrad tapes gx g = Except.error secondOrderErr) ∧
    ((∀ t ∈ tapes, t = true) →
      innerGrad tapes gx g = Except.ok (gx.map (fun y => g * y))) := by
  constructor
  · intro hsecond
    unfold innerGrad
    rw [if_pos]
    rw [List.any_eq_true]
    exact ⟨false, hsecond, rfl⟩
  · intro hfirst
    unfold innerGrad
    rw [if_neg]
    intro hany
    rw [List.any_eq_true] at hany
    obtain ⟨t, ht, hnt⟩ := hany
    rw [hfirst t ht] at hnt
    exact Bool.false_ne_true hnt

/-- Witness for C5: with an incomplete tape the error is raised; with all
    tapes complete the first-order gradient comes back. -/
theorem innerGrad_second_order_fails_witness :
    innerGrad [true, false] [2, 3] 5 = Except.error secondOrderErr ∧
    innerGrad [true, true] [2, 3] 5 = Except.ok [10, 15] := by
  constructor
  · exact (innerGrad_second_order_fails [true, false] [2, 3] 5).1 (by decide)
  · rw [(innerGrad_second_order_fails [true, true] [2, 3] 5).2 (by decide)]
    norm_num

/-! ## SfsLikelihoodSurface.newton subsample ladder
  (src/momi/likelihood.py lines 91 to 149)

  Source of the ladder loop:
    for substep in reversed(list(range(1,subsample_steps+1))):
        p = (2.0)**(-substep)
        subsample_counts = rgen.binomial(..., p*2.0)
        validation_counts = rgen.binomial(subsample_counts, .5)
        subsample_counts = subsample_counts - validation_counts
        if np.sum(validation_counts) == 0 or np.sum(subsample_counts) == 0:
            continue
        ... res = _minimize(...); x0 = res.x; subsample_results += [res]
    ret = _minimize(f=self.kl_divergence, start_params=x0, ...)

  The random draws are supplied as data (one pair of count vectors per
  substep) and one optimization run is an abstract Except-valued function
  of the subsample fraction, the draw and the start point.
-/

/-- Counts drawn for one ladder step: the training subsample counts and
    the held-out validation counts. -/
structure LadderDraw where
  subCounts : List ℕ
  valCounts : List ℕ

/-- State carried through the ladder: current start point and the
    accumulated subsample results. -/
structure LadderState (P R : Type) where
  x : P
  results : List R

/-- Substep indices in loop order: reversed(range(1, steps+1)). -/
def substepList (steps : ℕ) : List ℕ := ((List.range steps).map (· + 1)).reverse

/-- One iteration of the ladder loop: skip when the validation subsample
    (or the training subsample) is empty, otherwise run the optimization
    and append its result. -/
def ladderStep {P R : Type} (minimize : ℚ → LadderDraw → P → Except String (P × R))
    (draws : ℕ → LadderDraw) (st : LadderState P R) (substep : ℕ) :
    Except String (LadderState P R) :=
  let draw := draws substep
  if draw.valCounts.sum = 0 ∨ draw.subCounts.sum = 0 then Except.ok st
  else do
    let pr ← minimize ((1 / 2) ^ substep) draw st.x
    Except.ok ⟨pr.1, st.results ++ [pr.2]⟩

/-- Ladder loop over an explicit list of substeps, then the full-data fit. -/
def newtonOn {P R : Type} (minimize : ℚ → LadderDraw → P → Except String (P × R))
    (finalFit : P → Except String (P × R)) (draws : ℕ → LadderDraw)
    (subs : List ℕ) (x0 : P) : Except String (P × List R) := do
  let st ← subs.foldlM (ladderStep minimize draws) ⟨x0, []⟩
  let fin ← finalFit st.x
  Except.ok (fin.1, st.results ++ [fin.2])

/-- Embedding of the newton subsample ladder. -/
def newton {P R : Type} (minimize : ℚ → LadderDraw → P → Except String (P × R))
    (finalFit : P → Except String (P × R)) (steps : ℕ) (draws : ℕ → LadderDraw)
    (x0 : P) : Except String (P × List R) :=
  newtonOn minimize finalFit draws (substepList steps) x0

/-- Helper: a fold step that acts as pure on one element may drop that
    element from the list. -/
theorem foldlM_erase_of_pure {α β : Type} [DecidableEq α]
    (f : β → α → Except String β) (a : α) (hf : ∀ b, f b a = Except.ok b) :
    ∀ (l : List α) (b : β), l.foldlM f b = (l.erase a).foldlM f b := by
  intro l
  induction l with
  | nil => intro b; rfl
  | cons hd tl ih =>
      intro b
      by_cases hhd : hd = a
      · subst hhd
        rw [List.erase_cons_head, List.foldlM_cons, hf]
        rfl
      · rw [List.erase_cons_tail (by simpa using hhd), List.foldlM_cons,
          List.foldlM_cons]
        cases hfb : f b hd with
        | error e => rfl
        | ok b2 => exact ih b2

/-- Claim C8: a ladder step whose validation subsample is empty is skipped
    without error (the state passes through unchanged and that step is
    never optimized), and the whole fit behaves exactly as the ladder with
    that substep removed, including the final full-data fit. -/
theorem newton_skips_empty_validation {P R : Type}
    (minimize : ℚ → LadderDraw → P → Except String (P × R))
    (finalFit : P → Except String (P × R)) (steps : ℕ) (draws : ℕ → LadderDraw)
    (x0 : P) (i : ℕ) (hval : (draws i).valCounts.sum = 0) :
    (∀ st : LadderState P R, ladderStep minimize draws st i = Except.ok st) ∧
    newton minimize finalFit steps draws x0
      = newtonOn minimize finalFit draws ((substepList steps).erase i) x0 := by
  have hskip : ∀ st : LadderState P R,
      ladderStep minimize draws st i = Except.ok st := by
    intro st
    unfold ladderStep
    rw [if_pos (Or.inl hval)]
  refine ⟨hskip, ?_⟩
  unfold newton newtonOn
  rw [foldlM_erase_of_pure (ladderStep minimize draws) i hskip (substepList steps)]

/-- Witness for C8: a two-step ladder whose first executed substep draws an
    empty validation subsample behaves as the one-step ladder. -/
theorem newton_skips_empty_validation_witness :
    (∀ st : LadderState ℚ ℕ,
      ladderStep (fun _ _ (x : ℚ) => Except.ok (x + 1, (7 : ℕ)))
        (fun k => if k = 2 then ⟨[3], [0, 0]⟩ else ⟨[3], [2]⟩) st 2
        = Except.ok st) ∧
    newton (fun _ _ (x : ℚ) => Except.ok (x + 1, (7 : ℕ)))
        (fun x => Except.ok (x + 2, 9)) 2
        (fun k => if k = 2 then ⟨[3], [0, 0]⟩ else ⟨[3], [2]⟩) 0
      = newtonOn (fun _ _ (x : ℚ) => Except.ok (x + 1, (7 : ℕ)))
        (fun x => Except.ok (x + 2, 9))
        (fun k => if k = 2 then ⟨[3], [0, 0]⟩ else ⟨[3], [2]⟩)
        ((substepList 2).erase 2) 0 :=
  newton_skips_empty_validation (fun _ _ (x : ℚ) => Except.ok (x + 1, (7 : ℕ)))
    (fun x => Except.ok (x + 2, 9)) 2
    (fun k => if k = 2 then ⟨[3], [0, 0]⟩ else ⟨[3], [2]⟩) 0 2 (by norm_num)

/-! ## Demography (src/demography.py)

  The networkx digraph is embedded as an explicit node list with an edge
  list; per-node attribute dictionaries become an explicit state function
  from node names to optional attributes (a missing dictionary key is
  none, and reading it raises).  The lazily cached aggregate properties
  (n_lineages_subtended_by, n_derived_subtended_by, leaves_subtended_by)
  become optional fields of the Demography record; reading such a
  property fills its cache, and update_state deletes exactly the caches
  the source deletes (n_derived_subtended_by and node_data -- the node
  attribute dictionaries themselves are mutated in place, so deleting
  the node_data cache has no further observable effect and the state
  function stands for both).
-/

/-- Attribute dictionary of one node; a missing key is none. -/
structure NodeData where
  lineages : Option ℕ
  derived : Option ℕ
  ancestral : Option ℕ
deriving DecidableEq

/-- Directed graph on natural-number node names. -/
structure Digraph where
  nodes : List ℕ
  edges : List (ℕ × ℕ)
deriving DecidableEq

/-- Out-degree of a node. -/
def outDegree (g : Digraph) (v : ℕ) : ℕ := (g.edges.filter (fun e => e.1 = v)).length

/-- In-degree of a node. -/
def inDegree (g : Digraph) (v : ℕ) : ℕ := (g.edges.filter (fun e => e.2 = v)).length

/-- Leaves are the nodes of out-degree zero. -/
def leavesOf (g : Digraph) : List ℕ := g.nodes.filter (fun v => outDegree g v = 0)

/-- In-degree-zero nodes, the candidate roots. -/
def rootListOf (g : Digraph) : List ℕ := g.nodes.filter (fun v => inDegree g v = 0)

/-- Direct successors of a node. -/
def succList (g : Digraph) (v : ℕ) : List ℕ :=
  (g.edges.filter (fun e => e.1 = v)).map Prod.snd

/-- One step of reachability closure. -/
def reachStep (g : Digraph) (s : List ℕ) : List ℕ :=
  (s ++ s.flatMap (succList g)).dedup

/-- Nodes reachable from v (embedding of nx.dfs_preorder_nodes as a
    bounded closure, sufficient on the finite graphs considered). -/
def reachableFrom (g : Digraph) (v : ℕ) : List ℕ :=
  (reachStep g)^[g.nodes.length] [v]

/-- Embedding of leaves_subtended_by of one node. -/
def leavesSubtendedBy (g : Digraph) (v : ℕ) : List ℕ :=
  (leavesOf g).filter (fun l => l ∈ reachableFrom g v)

/-- Embedding of the computation behind n_lineages_subtended_by. -/
def computeNLineages (g : Digraph) (st : ℕ → NodeData) (v : ℕ) : ℕ :=
  ((leavesSubtendedBy g v).map (fun l => (st l).lineages.getD 0)).sum

/-- Embedding of the computation behind n_derived_subtended_by. -/
def computeNDerived (g : Digraph) (st : ℕ → NodeData) (v : ℕ) : ℕ :=
  ((leavesSubtendedBy g v).map (fun l => (st l).derived.getD 0)).sum

/-- Demography: graph, node state, and the lazy caches of the three
    aggregate properties. -/
structure Demography where
  graph : Digraph
  state : ℕ → NodeData
  cacheNLineages : Option (ℕ → ℕ)
  cacheNDerived : Option (ℕ → ℕ)
  cacheLeavesSub : Option (ℕ → List ℕ)

/-- Embedding of Demography.__init__ (lines 31 to 35): only the per-leaf
    lineages attribute is checked; caches start empty. -/
def initDemography (g : Digraph) (st : ℕ → NodeData) : Except String Demography :=
  if (leavesOf g).all (fun l => (st l).lineages.isSome) then
    Except.ok ⟨g, st, none, none, none⟩
  else
    Except.error "lineages attribute must be set for each leaf node"

/-- Embedding of the root cached property (lines 41 to 45), evaluated on
    first access: asserts that exactly one in-degree-zero node exists. -/
def rootQuery (d : Demography) : Except String ℕ :=
  match rootListOf d.graph with
  | [r] => Except.ok r
  | _ => Except.error "assertion failed: expected exactly one in-degree-zero node"

/-- Cached read of n_lineages_subtended_by: returns the cached function
    when present, otherwise recomputes and fills the cache. -/
def readNLineages (d : Demography) : (ℕ → ℕ) × Demography :=
  match d.cacheNLineages with
  | some f => (f, d)
  | none =>
      let f := computeNLineages d.graph d.state
      (f, { d with cacheNLineages := some f })

/-- Cached read of n_derived_subtended_by. -/
def readNDerived (d : Demography) : (ℕ → ℕ) × Demography :=
  match d.cacheNDerived with
  | some f => (f, d)
  | none =>
      let f := computeNDerived d.graph d.state
      (f, { d with cacheNDerived := some f })

/-- Cached read of leaves_subtended_by. -/
def readLeavesSub (d : Demography) : (ℕ → List ℕ) × Demography :=
  match d.cacheLeavesSub with
  | some f => (f, d)
  | none =>
      let f := leavesSubtendedBy d.graph
      (f, { d with cacheLeavesSub := some f })

/-- New derived/ancestral values for one leaf, as passed to update_state. -/
structure LeafUpd where
  derived : ℕ
  ancestral : ℕ
deriving DecidableEq

/-- Merge the update dictionaries into the node state (ndn.update). -/
def applyUpd (st : ℕ → NodeData) (u : List (ℕ × LeafUpd)) : ℕ → NodeData :=
  fun v =>
    match u.lookup v with
    | some w => { st v with derived := some w.derived, ancestral := some w.ancestral }
    | none => st v

/-- Additive invariant of one node after a merge: lineages, derived and
    ancestral are all present and lineages = derived + ancestral (a
    missing key raises in the source, hence false here). -/
def invariantHolds (nd : NodeData) : Bool :=
  match nd.lineages, nd.derived, nd.ancestral with
  | some l, some dv, some av => l == dv + av
  | _, _, _ => false

/-- Embedding of Demography.update_state (lines 72 to 83): merge the new
    leaf states, re-validate the additive invariant on every updated
    node, and delete exactly the caches the source deletes:
    n_derived_subtended_by (and node_data, already represented by the
    updated state function).  The n_lineages_subtended_by and
    leaves_subtended_by caches are left untouched, as in the source. -/
def update_state (d : Demography) (u : List (ℕ × LeafUpd)) : Except String Demography :=
  let st2 := applyUpd d.state u
  if u.all (fun p => invariantHolds (st2 p.1)) then
    Except.ok { d with state := st2, cacheNDerived := none }
  else
    Except.error "derived + ancestral must add to lineages"

/-- Helper: a leaf update list never touches the lineages attribute. -/
theorem applyUpd_lineages (st : ℕ → NodeData) (u : List (ℕ × LeafUpd)) (v : ℕ) :
    ((applyUpd st u) v).lineages = (st v).lineages := by
  unfold applyUpd
  cases u.lookup v <;> rfl

/-- Helper: n_lineages_subtended_by is unchanged by a leaf update list. -/
theorem computeNLineages_applyUpd (g : Digraph) (st : ℕ → NodeData)
    (u : List (ℕ × LeafUpd)) :
    computeNLineages g (applyUpd st u) = computeNLineages g st := by
  funext v
  unfold computeNLineages
  congr 1
  apply List.map_congr_left
  intro l _
  rw [applyUpd_lineages]

/-- Helper: shape of a successful update_state. -/
theorem update_state_ok_elim (d : Demography) (u : List (ℕ × LeafUpd))
    (d2 : Demography) (hok : update_state d u = Except.ok d2) :
    d2 = { d with state := applyUpd d.state u, cacheNDerived := none } := by
  unfold update_state at hok
  simp only [] at hok
  split at hok
  · exact (Except.ok.inj hok).symm
  · exact absurd hok (by simp)

/-- Claim C2 (amended): update_state deletes only the
    n_derived_subtended_by cache, yet every subsequent read of the three
    aggregates agrees with a recomputation from the updated leaf state,
    because the surviving caches (n_lineages_subtended_by,
    leaves_subtended_by) do not depend on the derived/ancestral leaf
    attributes that update_state changes. -/
theorem update_state_read_consistency (d : Demography) (u : List (ℕ × LeafUpd))
    (d2 : Demography) (hok : update_state d u = Except.ok d2)
    (hlin : ∀ f, d.cacheNLineages = some f → f = computeNLineages d.graph d.state)
    (hleaf : ∀ f, d.cacheLeavesSub = some f → f = leavesSubtendedBy d.graph) :
    d2.cacheNDerived = none ∧
    (readNDerived d2).1 = computeNDerived d2.graph d2.state ∧
    (readNLineages d2).1 = computeNLineages d2.graph d2.state ∧
    (readLeavesSub d2).1 = leavesSubtendedBy d2.graph := by
  have hshape := update_state_ok_elim d u d2 hok
  subst hshape
  refine ⟨rfl, rfl, ?_, ?_⟩
  · show (readNLineages { d with state := applyUpd d.state u, cacheNDerived := none }).1 = _
    unfold readNLineages
    cases hc : d.cacheNLineages with
    | none => simp [hc]
    | some f =>
        simp only [hc]
        rw [hlin f hc]
        exact (computeNLineages_applyUpd d.graph d.state u).symm
  · unfold readLeavesSub
    cases hc : d.cacheLeavesSub with
    | none => simp [hc]
    | some f =>
        simp only [hc]
        exact hleaf f hc

/-- Example topology: root 0 with leaf children 1 and 2. -/
def exGraph : Digraph := ⟨[0, 1, 2], [(0, 1), (0, 2)]⟩

/-- Example node state on exGraph. -/
def exState : ℕ → NodeData :=
  fun v => if v = 0 then ⟨some 4, none, none⟩ else ⟨some 2, some 1, some 1⟩

/-- Example demography with empty caches. -/
def exDemo : Demography := ⟨exGraph, exState, none, none, none⟩

/-- Example update changing the derived/ancestral state of leaf 1. -/
def exUpd : List (ℕ × LeafUpd) := [(1, ⟨2, 0⟩)]

/-- Counterexample to C2 as stated: after populating the
    n_lineages_subtended_by cache and then calling update_state with a
    change to leaf derived/ancestral state, that cache is NOT
    invalidated (it is still populated), contradicting the claim that
    all cached per-node aggregate quantities are invalidated. -/
theorem update_state_cache_counterexample :
    (update_state (readNLineages exDemo).2 exUpd).map
      (fun d2 => d2.cacheNLineages.isSome) = Except.ok true := by
  rfl

/-- Demography obtained from the cached example by the example update. -/
def exDemoCached : Demography := (readNLineages exDemo).2

/-- Result demography of the witness update. -/
def exDemoUpdated : Demography :=
  { graph := exGraph, state := applyUpd exState exUpd,
    cacheNLineages := some (computeNLineages exGraph exState),
    cacheNDerived := none, cacheLeavesSub := none }

/-- Witness for C2 (amended) on the concrete example demography. -/
theorem update_state_read_consistency_witness :
    exDemoUpdated.cacheNDerived = none ∧
    (readNDerived exDemoUpdated).1
      = computeNDerived exDemoUpdated.graph exDemoUpdated.state ∧
    (readNLineages exDemoUpdated).1
      = computeNLineages exDemoUpdated.graph exDemoUpdated.state ∧
    (readLeavesSub exDemoUpdated).1 = leavesSubtendedBy exDemoUpdated.graph :=
  update_state_read_consistency exDemoCached exUpd exDemoUpdated rfl
    (fun _ hf => (Option.some.inj hf).symm)
    (fun _ hf => nomatch hf)

/-- Claim C7 (amended): construction rejects a missing per-leaf lineages
    attribute immediately, while the no-root/multiple-root topology check
    only runs at the first root query (an assertion in a lazily cached
    property), not at construction time. -/
theorem demography_construction_checks (g : Digraph) (st : ℕ → NodeData) :
    ((leavesOf g).all (fun l => (st l).lineages.isSome) = false →
      initDemography g st
        = Except.error "lineages attribute must be set for each leaf node") ∧
    (∀ d, initDemography g st = Except.ok d →
      ((rootListOf g).length ≠ 1 → (rootQuery d).isOk = false) ∧
      (∀ r, rootListOf g = [r] → rootQuery d = Except.ok r)) := by
  constructor
  · intro hmiss
    unfold initDemography
    rw [if_neg]
    rw [hmiss]
    exact Bool.false_ne_true
  · intro d hd
    have hg : d.graph = g := by
      unfold initDemography at hd
      split at hd
      · exact congrArg Demography.graph (Except.ok.inj hd).symm
      · exact absurd hd (by simp)
    constructor
    · intro hlen
      unfold rootQuery
      rw [hg]
      cases hr : rootListOf g with
      | nil => rfl
      | cons a t =>
          cases t with
          | nil => exact absurd (by rw [hr]; rfl) hlen
          | cons b t2 => rfl
    · intro r hr
      unfold rootQuery
      rw [hg, hr]

/-- Example topology with two in-degree-zero nodes 0 and 1. -/
def exTwoRootGraph : Digraph := ⟨[0, 1, 2, 3], [(0, 2), (1, 3)]⟩

/-- Uniform leaf state carrying lineages, derived and ancestral. -/
def exLeafState : ℕ → NodeData := fun _ => ⟨some 2, some 1, some 1⟩

/-- Counterexample to C7 as stated: a Demography over a topology with two
    in-degree-zero nodes constructs successfully (no error at
    construction time); the error only surfaces at the root query. -/
theorem root_check_deferred_counterexample :
    (initDemography exTwoRootGraph exLeafState).map (fun d => (rootQuery d).isOk)
      = Except.ok false := by
  rfl

/-- Witness for C7 (amended): the missing-lineages rejection at
    construction and the deferred root assertion, on concrete inputs. -/
theorem demography_construction_checks_witness :
    initDemography exTwoRootGraph (fun _ => ⟨none, none, none⟩)
      = Except.error "lineages attribute must be set for each leaf node" ∧
    (rootQuery ⟨exTwoRootGraph, exLeafState, none, none, none⟩).isOk = false :=
  ⟨(demography_construction_checks exTwoRootGraph (fun _ => ⟨none, none, none⟩)).1
      (by decide),
   ((demography_construction_checks exTwoRootGraph exLeafState).2
      ⟨exTwoRootGraph, exLeafState, none, none, none⟩ rfl).1 (by decide)⟩

/-! ## demography.normalizing_constant (src/demography.py lines 152 to 194)

  The function saves the per-leaf ancestral/derived state (None when any
  leaf lacks one of the attributes), runs the Sum-Product engine on the
  all-ancestral state, subtracts the unnormalized probability of the
  all-derived state, and restores the saved state.
-/
/-- Helper: lookup into an update list built by mapping over keys finds
    the mapped value of a present key. -/
theorem lookup_map_of_mem (l : List ℕ) (f : ℕ → LeafUpd) (v : ℕ) (hv : v ∈ l) :
    (l.map (fun w => (w, f w))).lookup v = some (f v) := by
  induction l with
  | nil => exact absurd hv (List.not_mem_nil v)
  | cons a t ih =>
      rw [List.map_cons]
      show (match v == a with
        | true => some (f a)
        | false => List.lookup v (List.map (fun w => (w, f w)) t)) = some (f v)
      by_cases hva : v = a
      · subst hva
        rw [beq_self_eq_true]
      · rw [beq_eq_false_iff_ne.mpr hva]
        exact ih (by
          cases List.mem_cons.mp hv with
          | inl h => exact absurd h hva
          | inr h => exact h)

/-- Helper: effect of a mapped update list on the state of a present key. -/
theorem applyUpd_map_mem (st : ℕ → NodeData) (l : List ℕ) (f : ℕ → LeafUpd)
    (v : ℕ) (hv : v ∈ l) :
    (applyUpd st (l.map (fun w => (w, f w)))) v
      = { st v with derived := some (f v).derived, ancestral := some (f v).ancestral } := by
  unfold applyUpd
  rw [lookup_map_of_mem l f v hv]

/-- Result record of a successful update_state. -/
def updatedDemo (d : Demography) (u : List (ℕ × LeafUpd)) : Demography :=
  { d with state := applyUpd d.state u, cacheNDerived := none }

/-- Helper: update_state succeeds on a mapped update list whose values
    respect the additive invariant against the present lineages. -/
theorem update_state_map_ok (d : Demography) (l : List ℕ) (f : ℕ → LeafUpd)
    (h : ∀ v ∈ l, (d.state v).lineages = some ((f v).derived + (f v).ancestral)) :
    update_state d (l.map (fun w => (w, f w)))
      = Except.ok (updatedDemo d (l.map (fun w => (w, f w)))) := by
  have hcond : ((l.map (fun w => (w, f w))).all
      (fun p => invariantHolds ((applyUpd d.state (l.map (fun w => (w, f w)))) p.1)))
      = true := by
    rw [List.all_eq_true]
    intro p hp
    obtain ⟨v, hvl, rfl⟩ := List.mem_map.mp hp
    show invariantHolds ((applyUpd d.state (l.map (fun w => (w, f w)))) v) = true
    rw [applyUpd_map_mem d.state l f v hvl]
    unfold invariantHolds
    simp only [h v hvl]
    exact beq_self_eq_true _
  unfold update_state
  simp only []
  rw [if_pos hcond]
  rfl

/-- Helper: a present optional attribute equals some of its getD value. -/
theorem some_getD_of_isSome (o : Option ℕ) (h : o.isSome = true) :
    some (o.getD 0) = o := by
  cases o with
  | none => exact absurd h (by simp)
  | some a => rfl

/-- Helper: bind of a successful Except computation. -/
theorem exc_bind_ok {α β : Type} (a : α) (k : α → Except String β) :
    (Except.ok a >>= k) = k a := rfl

/-- Embedding of the saved previous leaf state: some when every leaf
    carries ancestral and derived, none otherwise (the except branch). -/
def leafPrevState (d : Demography) : Option (List (ℕ × LeafUpd)) :=
  if (leavesOf d.graph).all
      (fun v => (d.state v).ancestral.isSome && (d.state v).derived.isSome) then
    some ((leavesOf d.graph).map
      (fun v => (v, ⟨(d.state v).derived.getD 0, (d.state v).ancestral.getD 0⟩)))
  else none

/-- All-ancestral synthetic state update of the leaves. -/
def allAncestralUpd (d : Demography) : List (ℕ × LeafUpd) :=
  (leavesOf d.graph).map (fun v => (v, ⟨0, (d.state v).lineages.getD 0⟩))

/-- All-derived synthetic state update of the leaves. -/
def allDerivedUpd (d : Demography) : List (ℕ × LeafUpd) :=
  (leavesOf d.graph).map (fun v => (v, ⟨(d.state v).lineages.getD 0, 0⟩))

/-- Modelled from the spec: the Sum-Product engine quantities consumed by
    normalizing_constant are abstracted as parameters, because
    sum_product.py is not under src.  sfsTerm stands for the sum over
    nodes of (1 - partial_likelihood_bottom) * truncated_sfs evaluated on
    the all-ancestral demography, and pUnnorm for the unnormalized
    configuration probability sp.p evaluated on the all-derived
    demography; both are functions of the demography in its current
    state.  Embedding of normalizing_constant. -/
def normalizing_constant (sfsTerm pUnnorm : Demography → ℚ) (d : Demography) :
    Except String (ℚ × Demography) := do
  let prev := leafPrevState d
  let d1 ← update_state d (allAncestralUpd d)
  let r1 := sfsTerm d1
  let d2 ← update_state d1 (allDerivedUpd d1)
  let r2 := r1 - pUnnorm d2
  match prev with
  | some ps => do
      let d3 ← update_state d2 ps
      Except.ok (r2, d3)
  | none => Except.ok (r2, d2)

/-- Claim C10: on a Demography whose leaves all carry lineages, derived
    and ancestral attributes satisfying the additive invariant,
    normalizing_constant succeeds and leaves every leaf with its original
    derived and ancestral attributes, despite temporarily overwriting
    them with the synthetic all-ancestral and all-derived states. -/
theorem normalizing_constant_restores_leaves
    (sfsTerm pUnnorm : Demography → ℚ) (d : Demography)
    (hattrs : ∀ v ∈ leavesOf d.graph,
      (d.state v).lineages.isSome = true ∧ (d.state v).derived.isSome = true ∧
        (d.state v).ancestral.isSome = true)
    (hinv : ∀ v ∈ leavesOf d.graph,
      (d.state v).lineages
        = some ((d.state v).derived.getD 0 + (d.state v).ancestral.getD 0)) :
    ∃ r d3, normalizing_constant sfsTerm pUnnorm d = Except.ok (r, d3) ∧
      ∀ v ∈ leavesOf d.graph,
        (d3.state v).derived = (d.state v).derived ∧
        (d3.state v).ancestral = (d.state v).ancestral := by
  have hprev : leafPrevState d
      = some ((leavesOf d.graph).map
          (fun v => (v, ⟨(d.state v).derived.getD 0, (d.state v).ancestral.getD 0⟩))) := by
    unfold leafPrevState
    rw [if_pos]
    rw [List.all_eq_true]
    intro v hv
    rw [Bool.and_eq_true]
    exact ⟨(hattrs v hv).2.2, (hattrs v hv).2.1⟩
  have h1 : update_state d (allAncestralUpd d)
      = Except.ok (updatedDemo d (allAncestralUpd d)) := by
    apply update_state_map_ok
    intro v hv
    rw [Nat.zero_add]
    exact (some_getD_of_isSome _ (hattrs v hv).1).symm
  set D1 : Demography := updatedDemo d (allAncestralUpd d) with hD1
  have hD1lin : ∀ v, (D1.state v).lineages = (d.state v).lineages := by
    intro v
    exact applyUpd_lineages d.state (allAncestralUpd d) v
  have hD1graph : D1.graph = d.graph := rfl
  have h2 : update_state D1 (allDerivedUpd D1)
      = Except.ok (updatedDemo D1 (allDerivedUpd D1)) := by
    apply update_state_map_ok
    intro v hv
    have hv2 : v ∈ leavesOf d.graph := by rw [hD1graph] at hv; exact hv
    rw [hD1lin v, Nat.add_zero]
    exact (some_getD_of_isSome _ (hattrs v hv2).1).symm
  set D2 : Demography := updatedDemo D1 (allDerivedUpd D1) with hD2
  have hD2lin : ∀ v, (D2.state v).lineages = (d.state v).lineages := by
    intro v
    have : (D2.state v).lineages = (D1.state v).lineages :=
      applyUpd_lineages D1.state (allDerivedUpd D1) v
    rw [this, hD1lin]
  have h3 : update_state D2 ((leavesOf d.graph).map
      (fun v => (v, ⟨(d.state v).derived.getD 0, (d.state v).ancestral.getD 0⟩)))
      = Except.ok (updatedDemo D2 ((leavesOf d.graph).map
          (fun v => (v, ⟨(d.state v).derived.getD 0, (d.state v).ancestral.getD 0⟩)))) := by
    apply update_state_map_ok
    intro v hv
    rw [hD2lin v]
    exact hinv v hv
  refine ⟨sfsTerm D1 - pUnnorm D2, updatedDemo D2 ((leavesOf d.graph).map
      (fun v => (v, ⟨(d.state v).derived.getD 0, (d.state v).ancestral.getD 0⟩))), ?_, ?_⟩
  · simp only [normalizing_constant, hprev, h1, h2, h3, exc_bind_ok]
  · intro v hv
    show ((applyUpd D2.state ((leavesOf d.graph).map
      (fun w => (w, ⟨(d.state w).derived.getD 0, (d.state w).ancestral.getD 0⟩)))) v).derived
        = (d.state v).derived ∧
      ((applyUpd D2.state ((leavesOf d.graph).map
        (fun w => (w, ⟨(d.state w).derived.getD 0, (d.state w).ancestral.getD 0⟩)))) v).ancestral
        = (d.state v).ancestral
    rw [applyUpd_map_mem D2.state (leavesOf d.graph)
      (fun w => ⟨(d.state w).derived.getD 0, (d.state w).ancestral.getD 0⟩) v hv]
    constructor
    · exact some_getD_of_isSome _ (hattrs v hv).2.1
    · exact some_getD_of_isSome _ (hattrs v hv).2.2

/-- Witness for C10: on the example demography the computation succeeds
    and each leaf keeps its derived and ancestral attributes. -/
theorem normalizing_constant_restores_leaves_witness :
    ∃ r d3, normalizing_constant (fun _ => 5) (fun _ => 2) exDemo
        = Except.ok (r, d3) ∧
      ∀ v ∈ leavesOf exDemo.graph,
        (d3.state v).derived = (exDemo.state v).derived ∧
        (d3.state v).ancestral = (exDemo.state v).ancestral :=
  normalizing_constant_restores_leaves (fun _ => 5) (fun _ => 2) exDemo
    (by decide) (by decide)

/-! ## SfsLikelihoodSurface.log_likelihood and kl_divergence
  (src/momi/likelihood.py lines 33 to 64, 254 to 311)

  The SFS dataset is embedded as batches of (count, configuration id)
  pairs with per-locus SNP counts.  np.log enters abstractly as a
  function log, the expected SFS of the demography built from the
  parameters enters abstractly as esfs (the normalized per-configuration
  entry of the Sum-Product engine), and the expected total branch length
  as Etot, because compute_sfs.py and data_structure.py are not under
  src.
-/

/-- Dataset of one likelihood surface: SFS batches, per-locus SNP counts,
    empirical entropy, and the missing-data flag. -/
structure SfsData where
  batches : List (List (ℚ × ℕ))
  snpCounts : List ℚ
  entropy : ℚ
  hasMissingData : Bool

/-- Modelled from the spec: sfs._integrate_sfs (data_structure.py is not
    under src) is the count-weighted sum over the observed
    configurations.  Embedding of _composite_log_likelihood of one batch:
    count times log of max(expected probability, truncate_probs), summed. -/
def composite_log_likelihood (log : ℚ → ℚ) (esfs : ℕ → ℚ) (truncate_probs : ℚ)
    (batch : List (ℚ × ℕ)) : ℚ :=
  (batch.map (fun ck => ck.1 * log (qmax (esfs ck.2) truncate_probs))).sum

/-- Embedding of _mut_factor with a scalar mutation rate: lambda is the
    rate times the expected total branch length, and each locus
    contributes -lambda + k * log lambda; missing data raises. -/
def mut_factor (log : ℚ → ℚ) (Etot : ℚ) (snpCounts : List ℚ) (hasMissing : Bool)
    (mutRate : ℚ) : Except String ℚ :=
  if hasMissing then
    Except.error "Poisson model not implemented for missing data"
  else
    Except.ok ((snpCounts.map
      (fun k => -(mutRate * Etot) + k * log (mutRate * Etot))).sum)

/-- Python truthiness of the optional mutation rate (None and 0.0 are
    falsy). -/
def truthy : Option ℚ → Bool
  | none => false
  | some q => decide (q ≠ 0)

/-- Embedding of SfsLikelihoodSurface.log_likelihood: accumulate the
    per-batch composite log-likelihoods, then add the mutation factor
    when a nonzero mutation rate was supplied. -/
def log_likelihood (log : ℚ → ℚ) (esfs : ℕ → ℚ) (Etot truncate_probs : ℚ)
    (mutRate : Option ℚ) (s : SfsData) : Except String ℚ :=
  let base := s.batches.foldl
    (fun ret batch => ret + composite_log_likelihood log esfs truncate_probs batch) 0
  if truthy mutRate then do
    let m ← mut_factor log Etot s.snpCounts s.hasMissingData (mutRate.getD 0)
    Except.ok (base + m)
  else Except.ok base

/-- Modelled from the spec (wording of claim C1): Poisson log-likelihood,
    up to its parameter-free factorial term, of observing k events under
    mean lam. -/
def poissonLogLik (log : ℚ → ℚ) (lam k : ℚ) : ℚ := -lam + k * log lam

/-- Modelled from the spec (wording of claim C1): sum over the SFS
    batches of the composite log-likelihood, each batch summing count
    times log of max(expected probability, truncation floor) over its
    observed configurations. -/
def specLogLik (log : ℚ → ℚ) (esfs : ℕ → ℚ) (t : ℚ) (s : SfsData) : ℚ :=
  (s.batches.map (fun batch =>
    (batch.map (fun ck => ck.1 * log (qmax (esfs ck.2) t))).sum)).sum

/-- Helper: a running-sum fold equals the sum of the mapped list. -/
theorem foldl_add_eq_sum {α : Type} (f : α → ℚ) (l : List α) (a : ℚ) :
    l.foldl (fun r x => r + f x) a = a + (l.map f).sum := by
  induction l generalizing a with
  | nil => simp
  | cons x t ih =>
      rw [List.foldl_cons, ih, List.map_cons, List.sum_cons]
      ring

/-- Claim C1: log_likelihood equals the sum over the SFS batches of the
    composite log-likelihood (count times log of max(expected
    probability, truncate_probs) summed over observed configurations),
    plus, when a nonzero mutation rate is supplied on data without
    missing alleles, the Poisson log-likelihood terms for the observed
    SNP counts with per-locus mean rate times expected total branch
    length; with a single locus this is exactly the Poisson term for the
    total observed SNP count. -/
theorem log_likelihood_spec (log : ℚ → ℚ) (esfs : ℕ → ℚ)
    (Etot truncate_probs : ℚ) (mutRate : Option ℚ) (s : SfsData)
    (hmd : s.hasMissingData = false) :
    (log_likelihood log esfs Etot truncate_probs none s
        = Except.ok (specLogLik log esfs truncate_probs s)) ∧
    (∀ mu : ℚ, mu ≠ 0 → mutRate = some mu →
      log_likelihood log esfs Etot truncate_probs mutRate s
        = Except.ok (specLogLik log esfs truncate_probs s
            + (s.snpCounts.map (poissonLogLik log (mu * Etot))).sum)) ∧
    (∀ (mu K : ℚ), mu ≠ 0 → mutRate = some mu → s.snpCounts = [K] →
      log_likelihood log esfs Etot truncate_probs mutRate s
        = Except.ok (specLogLik log esfs truncate_probs s
            + poissonLogLik log (mu * Etot) K)) := by
  have hbase : s.batches.foldl
      (fun ret batch => ret + composite_log_likelihood log esfs truncate_probs batch) 0
      = specLogLik log esfs truncate_probs s := by
    rw [foldl_add_eq_sum (composite_log_likelihood log esfs truncate_probs) s.batches 0]
    rw [zero_add]
    rfl
  have hmut : ∀ mu : ℚ,
      mut_factor log Etot s.snpCounts s.hasMissingData mu
        = Except.ok ((s.snpCounts.map (poissonLogLik log (mu * Etot))).sum) := by
    intro mu
    unfold mut_factor
    rw [hmd]
    rfl
  refine ⟨?_, ?_, ?_⟩
  · unfold log_likelihood
    simp only [truthy]
    rw [if_neg Bool.false_ne_true, hbase]
  · intro mu hmu hrate
    subst hrate
    unfold log_likelihood
    simp only [truthy]
    rw [if_pos (by simpa using hmu)]
    simp only [Option.getD_some]
    rw [hmut mu, exc_bind_ok, hbase]
  · intro mu K hmu hrate hcounts
    have h2 := (by
      subst hrate
      unfold log_likelihood
      simp only [truthy]
      rw [if_pos (by simpa using hmu)]
      simp only [Option.getD_some]
      rw [hmut mu, exc_bind_ok, hbase] :
      log_likelihood log esfs Etot truncate_probs mutRate s
        = Except.ok (specLogLik log esfs truncate_probs s
            + (s.snpCounts.map (poissonLogLik log (mu * Etot))).sum))
    rw [h2, hcounts]
    rw [List.map_cons, List.map_nil, List.sum_cons, List.sum_nil, add_zero]

/-- Witness for C1 on a concrete two-batch dataset with one locus and a
    nonzero mutation rate. -/
theorem log_likelihood_spec_witness :
    log_likelihood id (fun c => (c : ℚ) + 1) 3 0 (some 1)
      ⟨[[(2, 0)], [(3, 1)]], [4], 1 / 2, false⟩ = Except.ok 17 := by
  have h := (log_likelihood_spec id (fun c => (c : ℚ) + 1) 3 0 (some 1)
      ⟨[[(2, 0)], [(3, 1)]], [4], 1 / 2, false⟩ rfl).2.2 1 4 (by norm_num) rfl rfl
  rw [h]
  norm_num [specLogLik, poissonLogLik, qmax]

/-- Embedding of SfsLikelihoodSurface.kl_divergence: negative
    log-likelihood rescaled against the empirical entropy, divided by
    the total SNP count, then the exact assert ret >= 0 of the source. -/
def kl_divergence (log : ℚ → ℚ) (esfs : ℕ → ℚ) (Etot truncate_probs : ℚ)
    (mutRate : Option ℚ) (s : SfsData) : Except String ℚ := do
  let log_lik ← log_likelihood log esfs Etot truncate_probs mutRate s
  let ret1 := -log_lik + s.snpCounts.sum * s.entropy
  let ret2 :=
    if truthy mutRate then
      ret1 + (s.snpCounts.map (fun k =>
        -k + k * log (s.snpCounts.sum * (mutRate.getD 0)
          / (s.snpCounts.map (fun _ => mutRate.getD 0)).sum))).sum
    else ret1
  let ret3 := ret2 / s.snpCounts.sum
  if 0 ≤ ret3 then Except.ok ret3
  else Except.error "kl-div assertion failed: negative"

/-- Counterexample to C4 as stated: the assert of kl_divergence is exact,
    not floating-point tolerant; a computed value of -1/10^30, far below
    any floating-point tolerance, aborts the computation instead of
    passing. -/
theorem kl_divergence_tolerance_counterexample :
    kl_divergence (fun _ => 0) (fun _ => 0) 0 0 none
      ⟨[], [1], -(1 / 10 ^ 30), false⟩
      = Except.error "kl-div assertion failed: negative" := by
  norm_num [kl_divergence, log_likelihood, truthy, exc_bind_ok]

/-- Claim C4 (amended): kl_divergence enforces non-negativity through an
    exact assertion: every value it returns is at least 0, and any
    negative computed value, however small, aborts with the assertion
    error instead of being returned. -/
theorem kl_divergence_nonneg_exact (log : ℚ → ℚ) (esfs : ℕ → ℚ)
    (Etot truncate_probs : ℚ) (mutRate : Option ℚ) (s : SfsData) (v : ℚ)
    (hok : kl_divergence log esfs Etot truncate_probs mutRate s = Except.ok v) :
    0 ≤ v := by
  unfold kl_divergence at hok
  cases hll : log_likelihood log esfs Etot truncate_probs mutRate s with
  | error e =>
      rw [hll] at hok
      exact absurd hok (by simp [Bind.bind, Except.bind])
  | ok a =>
      rw [hll, exc_bind_ok] at hok
      set r3 : ℚ := (if truthy mutRate then
          (-a + s.snpCounts.sum * s.entropy) + (s.snpCounts.map (fun k =>
            -k + k * log (s.snpCounts.sum * (mutRate.getD 0)
              / (s.snpCounts.map (fun _ => mutRate.getD 0)).sum))).sum
        else -a + s.snpCounts.sum * s.entropy) / s.snpCounts.sum with hr3
      by_cases hpos : 0 ≤ r3
      · rw [if_pos hpos] at hok
        rw [← Except.ok.inj hok]
        exact hpos
      · rw [if_neg hpos] at hok
        exact absurd hok (by simp)

/-- Witness for C4 (amended): a run returning a value, which is
    non-negative. -/
theorem kl_divergence_nonneg_exact_witness : (0 : ℚ) ≤ 1 / 2 :=
  kl_divergence_nonneg_exact (fun _ => 0) (fun _ => 0) 0 0 none
    ⟨[], [1], 1 / 2, false⟩ (1 / 2)
    (by norm_num [kl_divergence, log_likelihood, truthy, exc_bind_ok])

/-! ## ConfidenceRegion.godambe (src/momi/likelihood.py lines 400 to 412)

  Source:
    fisher_inv = inv_psd(self.fisher)
    ret = check_psd(np.dot(fisher_inv, np.dot(self.score_cov, fisher_inv)))
    if not inverse:
        ret = inv_psd(ret)
    return ret

  check_psd and inv_psd come from modules absent from src (the version
  of momi/util.py under src predates check_psd, and math_functions.py is
  absent), so both are modelled from the spec.  Matrices are embedded as
  2 by 2 rational matrices, where symmetric positive semi-definiteness
  is exactly decidable.
-/

/-- Two-by-two rational matrix with rows (a b) and (c d). -/
structure Mat2 where
  a : ℚ
  b : ℚ
  c : ℚ
  d : ℚ
deriving DecidableEq

/-- Matrix product of 2 by 2 matrices. -/
def matMul (X Y : Mat2) : Mat2 :=
  ⟨X.a * Y.a + X.b * Y.c, X.a * Y.b + X.b * Y.d,
   X.c * Y.a + X.d * Y.c, X.c * Y.b + X.d * Y.d⟩

/-- Determinant of a 2 by 2 matrix. -/
def matDet (X : Mat2) : ℚ := X.a * X.d - X.b * X.c

/-- Inverse of a 2 by 2 matrix with nonzero determinant. -/
def matInv (X : Mat2) : Mat2 :=
  ⟨X.d / matDet X, -X.b / matDet X, -X.c / matDet X, X.a / matDet X⟩

/-- Exact symmetric positive semi-definiteness of a 2 by 2 rational
    matrix: symmetry plus non-negative diagonal and determinant. -/
def isSymmPsd (X : Mat2) : Bool :=
  decide (X.b = X.c) && decide (0 ≤ X.a) && decide (0 ≤ X.d) && decide (0 ≤ matDet X)

/-- Modelled from the spec: check_psd raises when numerical checks reveal
    the matrix is not symmetric positive semi-definite, and returns the
    matrix otherwise; embedded exactly over rationals. -/
def check_psd (X : Mat2) : Except String Mat2 :=
  if isSymmPsd X then Except.ok X
  else Except.error "matrix is not symmetric positive semi-definite"

/-- Modelled from the spec: inv_psd inverts a matrix required to be
    symmetric positive definite, raising when it is not. -/
def inv_psd (X : Mat2) : Except String Mat2 :=
  if isSymmPsd X && decide (matDet X ≠ 0) then Except.ok (matInv X)
  else Except.error "matrix is not symmetric positive definite"

/-- Embedding of ConfidenceRegion.godambe. -/
def godambe (fisher score_cov : Mat2) (inverse : Bool) : Except String Mat2 := do
  let fisher_inv ← inv_psd fisher
  let ret ← check_psd (matMul fisher_inv (matMul score_cov fisher_inv))
  if inverse then Except.ok ret else inv_psd ret

/-- Claim C3: for an invertible symmetric PSD Fisher matrix, godambe
    returns the sandwich Fisher_inv ScoreCov Fisher_inv when called with
    inverse=true (and the inverse of that sandwich with inverse=false,
    when it is invertible), after requiring the sandwich to be symmetric
    positive semi-definite; when the check reveals the sandwich is not
    symmetric PSD, the computation fails with an error for either flag. -/
theorem godambe_sandwich (fisher score_cov : Mat2)
    (hf : isSymmPsd fisher = true) (hdf : matDet fisher ≠ 0) :
    (isSymmPsd (matMul (matInv fisher) (matMul score_cov (matInv fisher))) = true →
      godambe fisher score_cov true
        = Except.ok (matMul (matInv fisher) (matMul score_cov (matInv fisher))) ∧
      (isSymmPsd (matMul (matInv fisher) (matMul score_cov (matInv fisher))) = true →
        matDet (matMul (matInv fisher) (matMul score_cov (matInv fisher))) ≠ 0 →
        godambe fisher score_cov false
          = Except.ok (matInv (matMul (matInv fisher) (matMul score_cov (matInv fisher)))))) ∧
    (isSymmPsd (matMul (matInv fisher) (matMul score_cov (matInv fisher))) = false →
      ∀ inverse, (godambe fisher score_cov inverse).isOk = false) := by
  have hfinv : inv_psd fisher = Except.ok (matInv fisher) := by
    unfold inv_psd
    rw [if_pos]
    rw [Bool.and_eq_true, decide_eq_true_eq]
    exact ⟨hf, hdf⟩
  constructor
  · intro hpsd
    have hchk : check_psd (matMul (matInv fisher) (matMul score_cov (matInv fisher)))
        = Except.ok (matMul (matInv fisher) (matMul score_cov (matInv fisher))) := by
      unfold check_psd
      rw [if_pos hpsd]
    constructor
    · unfold godambe
      rw [hfinv, exc_bind_ok, hchk, exc_bind_ok, if_pos rfl]
    · intro hpsd2 hdet2
      unfold godambe
      rw [hfinv, exc_bind_ok, hchk, exc_bind_ok, if_neg Bool.false_ne_true]
      unfold inv_psd
      rw [if_pos]
      rw [Bool.and_eq_true, decide_eq_true_eq]
      exact ⟨hpsd2, hdet2⟩
  · intro hbad inverse
    have hchk : check_psd (matMul (matInv fisher) (matMul score_cov (matInv fisher)))
        = Except.error "matrix is not symmetric positive semi-definite" := by
      unfold check_psd
      rw [if_neg]
      rw [hbad]
      exact Bool.false_ne_true
    unfold godambe
    rw [hfinv, exc_bind_ok, hchk]
    rfl

/-- Witness for C3: identity Fisher information and a concrete symmetric
    PSD score covariance; both flag values produce the expected sandwich
    and its inverse. -/
theorem godambe_sandwich_witness :
    godambe ⟨1, 0, 0, 1⟩ ⟨2, 1, 1, 2⟩ true
        = Except.ok (matMul (matInv ⟨1, 0, 0, 1⟩)
            (matMul ⟨2, 1, 1, 2⟩ (matInv ⟨1, 0, 0, 1⟩))) ∧
    godambe ⟨1, 0, 0, 1⟩ ⟨2, 1, 1, 2⟩ false
        = Except.ok (matInv (matMul (matInv ⟨1, 0, 0, 1⟩)
            (matMul ⟨2, 1, 1, 2⟩ (matInv ⟨1, 0, 0, 1⟩)))) := by
  have h := godambe_sandwich ⟨1, 0, 0, 1⟩ ⟨2, 1, 1, 2⟩
    (by norm_num [isSymmPsd, matDet]) (by norm_num [matDet])
  have hpsd : isSymmPsd (matMul (matInv ⟨1, 0, 0, 1⟩)
      (matMul ⟨2, 1, 1, 2⟩ (matInv ⟨1, 0, 0, 1⟩))) = true := by
    norm_num [isSymmPsd, matMul, matInv, matDet]
  exact ⟨(h.1 hpsd).1,
    (h.1 hpsd).2 hpsd (by norm_num [matMul, matInv, matDet])⟩

/-! ## _build_sfs_batches (src/momi/likelihood.py lines 167 to 211)

  The observed configuration counts are embedded as a list of rationals,
  configurations as per-leaf (ancestral, derived) pairs.  Sorting by the
  (total-lineages, folded) key uses lexicographic tuple comparison as in
  Python; the batch of a slice holds each count at its original index,
  zero elsewhere, as in the source (curr = zeros; curr[idx] = counts[idx]).
-/

/-- Lexicographic boolean comparison of natural-number tuples (Python
    tuple ordering on equal-length tuples). -/
def lexLeN : List ℕ → List ℕ → Bool
  | [], _ => true
  | _ :: _, [] => false
  | a :: as2, b :: bs2 =>
      if a < b then true else if b < a then false else lexLeN as2 bs2

/-- Lexicographic minimum of two tuples: min(a, d) of the source. -/
def lexMin (x y : List ℕ) : List ℕ := if lexLeN x y then x else y

/-- Sort key (n, folded) of one configuration. -/
def sortKey (config : List (ℕ × ℕ)) : List ℕ × List ℕ :=
  (config.map (fun p => p.1 + p.2),
   lexMin (config.map Prod.fst) (config.map Prod.snd))

/-- Lexicographic comparison of (n, folded) key pairs. -/
def keyLe (x y : List ℕ × List ℕ) : Bool :=
  if lexLeN x.1 y.1 then (if lexLeN y.1 x.1 then lexLeN x.2 y.2 else true)
  else false

/-- Fuelled chunking of a list into consecutive slices of size b. -/
def chunkGo {α : Type} (b : ℕ) : ℕ → List α → List (List α)
  | _, [] => []
  | 0, l => [l]
  | fuel + 1, l => l.take b :: chunkGo b fuel (l.drop b)

/-- Embedding of the slice loop: split a list into consecutive chunks of
    size b (the last one possibly shorter). -/
def chunkList {α : Type} (b : ℕ) (l : List α) : List (List α) :=
  chunkGo b l.length l

/-- Helper: the chunks concatenate back to the list. -/
theorem chunkGo_join {α : Type} (b : ℕ) (hb : 0 < b) :
    ∀ (fuel : ℕ) (l : List α), l.length ≤ fuel → (chunkGo b fuel l).flatten = l := by
  intro fuel
  induction fuel with
  | zero =>
      intro l hl
      have hnil : l = [] := List.eq_nil_of_length_eq_zero (Nat.le_zero.mp hl)
      subst hnil
      rfl
  | succ n ih =>
      intro l hl
      cases l with
      | nil => rfl
      | cons x t =>
          show ((x :: t).take b :: chunkGo b n ((x :: t).drop b)).flatten = x :: t
          rw [List.flatten_cons]
          rw [ih ((x :: t).drop b) (by
            rw [List.length_drop]
            exact Nat.le_trans (Nat.sub_le_sub_left hb _)
              (Nat.le_trans (Nat.sub_le_sub_right hl 1) (Nat.le_refl n)))]
          exact List.take_append_drop b (x :: t)

/-- Helper: the chunks concatenate back to the list, stated for chunkList. -/
theorem chunkList_join {α : Type} (b : ℕ) (hb : 0 < b) (l : List α) :
    (chunkList b l).flatten = l :=
  chunkGo_join b hb l.length l (Nat.le_refl _)

/-- Embedding of _build_sfs_batches: the whole SFS when it fits in one
    batch, otherwise sorted index slices scattered back into full-length
    count vectors. -/
def buildSfsBatches (counts : List ℚ) (configs : List (List (ℕ × ℕ)))
    (batch_size : ℕ) : List (List ℚ) :=
  if counts.length ≤ batch_size then [counts]
  else
    let n := counts.length
    let keys := configs.map sortKey
    let sortedIdxs := (List.range n).mergeSort
      (fun i j => keyLe (keys.getD i ([], [])) (keys.getD j ([], [])))
    let idxList := chunkList batch_size sortedIdxs
    idxList.map (fun idxs =>
      (List.range n).map (fun j => if j ∈ idxs then counts.getD j 0 else 0))

/-- Helper: entry j of the scattered count vector of one index slice. -/
theorem batchVec_getD (counts : List ℚ) (idxs : List ℕ) (j : ℕ)
    (hj : j < counts.length) :
    ((List.range counts.length).map
      (fun j2 => if j2 ∈ idxs then counts.getD j2 0 else 0)).getD j 0
      = if j ∈ idxs then counts.getD j 0 else 0 := by
  have hlen : ((List.range counts.length).map
      (fun j2 => if j2 ∈ idxs then counts.getD j2 0 else 0)).length = counts.length := by
    rw [List.length_map, List.length_range]
  rw [List.getD_eq_getElem _ 0 (by rw [hlen]; exact hj)]
  rw [List.getElem_map, List.getElem_range]

/-- Helper: an index absent from every chunk contributes zero. -/
theorem sum_ite_chunks_zero (q : ℚ) (j : ℕ) :
    ∀ cs : List (List ℕ), j ∉ cs.flatten →
      (cs.map (fun c => if j ∈ c then q else 0)).sum = 0 := by
  intro cs
  induction cs with
  | nil => intro _; rfl
  | cons c t ih =>
      intro hj
      rw [List.flatten_cons] at hj
      rw [List.map_cons, List.sum_cons]
      rw [if_neg (fun hc => hj (List.mem_append.mpr (Or.inl hc)))]
      rw [ih (fun ht => hj (List.mem_append.mpr (Or.inr ht)))]
      exact zero_add 0

/-- Helper: an index present in the duplicate-free concatenation of the
    chunks contributes its value exactly once. -/
theorem sum_ite_chunks (q : ℚ) (j : ℕ) :
    ∀ cs : List (List ℕ), cs.flatten.Nodup → j ∈ cs.flatten →
      (cs.map (fun c => if j ∈ c then q else 0)).sum = q := by
  intro cs
  induction cs with
  | nil => intro _ hj; exact absurd hj (List.not_mem_nil j)
  | cons c t ih =>
      intro hnd hj
      rw [List.flatten_cons] at hnd hj
      obtain ⟨hndc, hndt, hdisj⟩ := List.nodup_append.mp hnd
      rw [List.map_cons, List.sum_cons]
      by_cases hc : j ∈ c
      · rw [if_pos hc]
        rw [sum_ite_chunks_zero q j t (fun ht => hdisj hc ht)]
        exact add_zero q
      · rw [if_neg hc]
        have hjt : j ∈ t.flatten := by
          cases List.mem_append.mp hj with
          | inl h => exact absurd h hc
          | inr h => exact h
        rw [ih hndt hjt]
        exact zero_add q

/-- Claim C9: for every SFS and positive batch size, the batches built by
    _build_sfs_batches are an exact partition of the observed counts:
    each batch entry is either zero or the original count at that
    configuration, and the entrywise sum over the batches recovers the
    original count vector, so nothing is dropped or double-counted. -/
theorem buildSfsBatches_partition (counts : List ℚ)
    (configs : List (List (ℕ × ℕ))) (batch_size : ℕ) (hb : 0 < batch_size)
    (j : ℕ) (hj : j < counts.length) :
    ((buildSfsBatches counts configs batch_size).map (fun v => v.getD j 0)).sum
        = counts.getD j 0 ∧
    ∀ v ∈ buildSfsBatches counts configs batch_size,
      v.getD j 0 = 0 ∨ v.getD j 0 = counts.getD j 0 := by
  by_cases hsmall : counts.length ≤ batch_size
  · unfold buildSfsBatches
    rw [if_pos hsmall]
    constructor
    · rw [List.map_cons, List.map_nil, List.sum_cons, List.sum_nil]
      exact add_zero _
    · intro v hv
      rw [List.mem_singleton.mp hv]
      exact Or.inr rfl
  · unfold buildSfsBatches
    rw [if_neg hsmall]
    simp only []
    set le2 : ℕ → ℕ → Bool := fun i j2 =>
      keyLe ((configs.map sortKey).getD i ([], []))
        ((configs.map sortKey).getD j2 ([], [])) with hle2
    set sortedIdxs : List ℕ := (List.range counts.length).mergeSort le2 with hsorted
    have hperm : sortedIdxs.Perm (List.range counts.length) :=
      List.mergeSort_perm _ _
    have hnodup : sortedIdxs.Nodup :=
      hperm.nodup_iff.mpr (List.nodup_range _)
    have hjmem : j ∈ sortedIdxs :=
      hperm.mem_iff.mpr (List.mem_range.mpr hj)
    have hjoin : (chunkList batch_size sortedIdxs).flatten = sortedIdxs :=
      chunkList_join batch_size hb sortedIdxs
    constructor
    · rw [List.map_map]
      have hcong : ∀ idxs ∈ chunkList batch_size sortedIdxs,
          ((fun v => v.getD j 0) ∘ (fun idxs =>
            (List.range counts.length).map
              (fun j2 => if j2 ∈ idxs then counts.getD j2 0 else 0))) idxs
            = (fun c => if j ∈ c then counts.getD j 0 else 0) idxs := by
        intro idxs _
        exact batchVec_getD counts idxs j hj
      rw [List.map_congr_left hcong]
      exact sum_ite_chunks (counts.getD j 0) j (chunkList batch_size sortedIdxs)
        (by rw [hjoin]; exact hnodup) (by rw [hjoin]; exact hjmem)
    · intro v hv
      obtain ⟨idxs, _, rfl⟩ := List.mem_map.mp hv
      rw [batchVec_getD counts idxs j hj]
      by_cases hc : j ∈ idxs
      · rw [if_pos hc]
        exact Or.inr rfl
      · rw [if_neg hc]
        exact Or.inl rfl

/-- Witness for C9 on a concrete SFS that fits in a single batch. -/
theorem buildSfsBatches_partition_witness :
    ((buildSfsBatches [1, 2] [[(0, 2)], [(1, 1)]] 5).map
        (fun v => v.getD 0 0)).sum = (1 : ℚ) ∧
    ∀ v ∈ buildSfsBatches [1, 2] [[(0, 2)], [(1, 1)]] 5,
      v.getD 0 0 = 0 ∨ v.getD 0 0 = (1 : ℚ) := by
  have h := buildSfsBatches_partition [1, 2] [[(0, 2)], [(1, 1)]] 5
    (by norm_num) 0 (by norm_num)
  constructor
  · rw [h.1]
    norm_num
  · intro v hv
    have h2 := h.2 v hv
    cases h2 with
    | inl hl => exact Or.inl hl
    | inr hr =>
        rw [hr]
        right
        norm_num

end Momi
